import Mathlib

/-!
Verification of the RRS situations review tool (src/src/App.tsx).

JavaScript objects used as string-keyed records (URLSearchParams, the
localized-text records, the media manifest, the three maps of the
category index) are embedded as association lists with overwrite
semantics: assignment replaces any earlier binding of the key and lookup
returns the unique binding.  JavaScript Set objects are embedded as
duplicate-free lists preserving insertion order.
-/

namespace RRS

/-- Lookup in a string-keyed record (JS `obj[k]`, `undefined` as `none`). -/
def recGet (m : List (String × α)) (k : String) : Option α :=
  match m with
  | [] => none
  | (k1, v) :: rest => if k1 = k then some v else recGet rest k

/-- Assignment `obj[k] = v` / `URLSearchParams.set`: replaces any existing binding. -/
def recSet (m : List (String × α)) (k : String) (v : α) : List (String × α) :=
  (k, v) :: m.filter (fun p => p.1 ≠ k)

/-- Deletion `URLSearchParams.delete(k)`: removes every binding of the key. -/
def recDel (m : List (String × α)) (k : String) : List (String × α) :=
  m.filter (fun p => p.1 ≠ k)

/-- The three display languages (`type Language`). -/
inductive Language where
  | en
  | de
  | ru
deriving DecidableEq, Repr

/-- The string code of the language, as used for record keys. -/
def Language.code : Language → String
  | .en => "en"
  | .de => "de"
  | .ru => "ru"

/-- The three difficulty tiers (`type Difficulty`). -/
inductive Difficulty where
  | beginner
  | intermediate
  | advanced
deriving DecidableEq, Repr

/-- A localized text entry (`type LocalizedEntry`); `lastModified` is kept optional as in the source. -/
structure LocalizedEntry where
  text : String
  lastModified : Option String := none
deriving DecidableEq, Repr

/-- A string-keyed record of localized entries (`Record<string, LocalizedEntry>`, also `RawOption`). -/
abbrev LocalizedRec := List (String × LocalizedEntry)

/-- The source function `getLocalizedText`: requested language first, then the
fixed chain `en`, `de`, `ru`, then the empty string. -/
def getLocalizedText (entry : LocalizedRec) (lang : Language) : String :=
  match recGet entry lang.code with
  | some e => e.text
  | none =>
    match recGet entry "en" with
    | some e => e.text
    | none =>
      match recGet entry "de" with
      | some e => e.text
      | none =>
        match recGet entry "ru" with
        | some e => e.text
        | none => ""

/-- The source function `getOptionText`: the same chain on whole entries (JS `||`
on objects, which are always truthy), then `.text` of the first hit or of
the final empty-text fallback object. -/
def getOptionText (option : LocalizedRec) (lang : Language) : String :=
  (((((recGet option lang.code).orElse
      (fun _ => recGet option "en")).orElse
      (fun _ => recGet option "de")).orElse
      (fun _ => recGet option "ru")).getD ⟨"", none⟩).text

/-- The fallback contract exactly as the specification words it: the
text of the requested language when present, otherwise the text of the first
language among en, de, ru present in the entry, otherwise the empty
string. -/
def resolveSpec (entry : LocalizedRec) (lang : Language) : String :=
  match recGet entry lang.code with
  | some e => e.text
  | none =>
    match ["en", "de", "ru"].findSome? (fun c => recGet entry c) with
    | some e => e.text
    | none => ""

/-! View-state parameter parsing (App, lines 217-227). -/

/-- The source function language parsing: the conditional chain comparing against de and ru. -/
def parseLang (langParam : Option String) : Language :=
  if langParam = some "de" then Language.de
  else if langParam = some "ru" then Language.ru
  else Language.en

/-- The source function difficulty parsing; `none` stands for the all branch. -/
def parseDifficulty (difficultyParam : Option String) : Option Difficulty :=
  if difficultyParam = some "beginner" then some Difficulty.beginner
  else if difficultyParam = some "intermediate" then some Difficulty.intermediate
  else if difficultyParam = some "advanced" then some Difficulty.advanced
  else none

/-! The URL-parameter update helper `updateParam` (App, lines 288-299) and
its call sites.  A JS `null` argument is `none`; JS falsiness of a string
(null or empty) is tested explicitly. -/

/-- JS falsiness of a nullable string: null/undefined or the empty string. -/
def jsFalsyStr : Option String → Bool
  | none => true
  | some s => s == ""

/-- The source function `updateParam`: delete the key on a falsy or literal all value,
otherwise set it; then clear the `id` parameter unless the key is `id`
itself or the call opted into `preserveId`. -/
def updateParam (params : List (String × String)) (key : String)
    (value : Option String) (preserveId : Bool) : List (String × String) :=
  let next := if jsFalsyStr value || value == some "all"
    then recDel params key
    else recSet params key (value.getD "")
  if key != "id" && !preserveId then recDel next "id" else next

/-- Language chip (App line 361): `updateParam` on key lang with `preserveId = true`. -/
def langChipClick (params : List (String × String)) (l : Language) : List (String × String) :=
  updateParam params "lang" (some l.code) true

/-- Difficulty chip (App line 391): `updateParam` on key difficulty (null when d is all) with `preserveId = true`. -/
def difficultyChipClick (params : List (String × String)) (d : String) : List (String × String) :=
  updateParam params "difficulty" (if d == "all" then none else some d) true

/-- Subcategory button (App line 419): `updateParam` on key category with `preserveId = true`. -/
def categoryButtonClick (params : List (String × String)) (subId : String) : List (String × String) :=
  updateParam params "category" (some subId) true

/-- All-categories button (App line 404): `updateParam` on key category with a null value and `preserveId = true`. -/
def allCategoriesClick (params : List (String × String)) : List (String × String) :=
  updateParam params "category" none true

/-- Search input (App line 372): `updateParam` on key q with default `preserveId = false`. -/
def queryInputChange (params : List (String × String)) (value : String) : List (String × String) :=
  updateParam params "q" (some value) false

/-- Issues checkbox (App line 437): `updateParam` on key issues (value 1 or null) with default `preserveId = false`. -/
def issuesToggleChange (params : List (String × String)) (checked : Bool) : List (String × String) :=
  updateParam params "issues" (if checked then some "1" else none) false

/-! Sequential navigation `go` (App, lines 307-312) and the selection
auto-repair effect (App, lines 276-283), modelled on the sequence of IDs
of the filtered list and the `id` URL parameter. -/

/-- JS array indexing `ids[n]` with a possibly negative integer index:
any out-of-range index (negative included) yields `undefined`. -/
def jsIndex (l : List String) (n : Int) : Option String :=
  if n < 0 then none else l[n.toNat]?

/-- The source function `go(delta)`: a no-op unless a current item exists
(a selected ID that occurs in the filtered sequence); otherwise looks up
`ids[ids.indexOf(current.id) + delta]` and selects it only when that
value is truthy (present and not the empty string).  Returns the
resulting selected ID. -/
def go (ids : List String) (selectedId : Option String) (delta : Int) : Option String :=
  match selectedId with
  | none => none
  | some sid =>
    if ids.contains sid then
      match jsIndex ids ((List.indexOf sid ids : Nat) + delta) with
      | some target => if target != "" then some target else some sid
      | none => some sid
    else some sid

/-- The auto-repair effect: do nothing when the filtered sequence is
empty; otherwise, when the selected ID is JS-falsy (absent or empty) or
does not occur in the sequence, set it to the first ID of the sequence.
Returns the resulting selected ID. -/
def autoRepair (ids : List String) (selectedId : Option String) : Option String :=
  match ids with
  | [] => selectedId
  | first :: rest =>
    let truthy : Bool := match selectedId with
      | none => false
      | some s => s != ""
    let found : Bool := match selectedId with
      | none => false
      | some s => (first :: rest).contains s
    if !truthy || !found then some first else selectedId

/-! JavaScript string primitives used by the filter engine, embedded over
character lists (the byte-position based Lean `String` functions do not
reduce definitionally, so the equivalent list-level forms are used). -/

/-- JS `toLowerCase()` over the character list. -/
def jsToLower (s : String) : String :=
  String.mk (s.data.map Char.toLower)

/-- JS `trim()`: strip leading and trailing whitespace. -/
def jsTrim (s : String) : String :=
  String.mk (((s.data.dropWhile Char.isWhitespace).reverse.dropWhile Char.isWhitespace).reverse)

/-- List-level prefix test. -/
def isPrefixB : List Char → List Char → Bool
  | [], _ => true
  | _ :: _, [] => false
  | a :: as, b :: bs => a == b && isPrefixB as bs

/-- List-level infix test: the needle occurs as a contiguous run. -/
def isInfixB (needle hay : List Char) : Bool :=
  match hay with
  | [] => isPrefixB needle []
  | _ :: rest => isPrefixB needle hay || isInfixB needle rest

/-- JS `hay.includes(q)`: substring occurrence. -/
def strIncludes (hay q : String) : Bool :=
  isInfixB q.data hay.data

/-- JS `s.endsWith(suffix)`. -/
def strEndsWith (s suffix : String) : Bool :=
  isPrefixB suffix.data.reverse s.data.reverse

/-! Data model: category tree, media manifest, situations
(src/src/App.tsx lines 8-48). -/

/-- A per-language display name (`Record<Language, string>`). -/
structure NameRec where
  en : String
  de : String
  ru : String
deriving DecidableEq, Repr

/-- A subcategory of the category tree. -/
structure SubcategoryNode where
  id : String
  name : NameRec
  situationIds : List String
deriving DecidableEq, Repr

/-- A parent category of the two-level category tree (`type CategoryNode`). -/
structure CategoryNode where
  id : String
  name : NameRec
  subcategories : List SubcategoryNode
deriving DecidableEq, Repr

/-- A media kind of the manifest (question or answer). -/
inductive MediaKind where
  | question
  | answer
deriving DecidableEq, Repr

/-- The media manifest (a record from situation ID to media kinds). -/
abbrev MediaManifest := List (String × List MediaKind)

/-- Per-subcategory metadata stored in the index. -/
structure SubMeta where
  parentId : String
  name : NameRec
  parentName : NameRec
deriving DecidableEq, Repr

/-- The derived category index (`type CategoryIndex`). -/
structure CategoryIndex where
  byId : List (String × List String)
  subMeta : List (String × SubMeta)
  situationToSub : List (String × List String)
deriving DecidableEq, Repr

/-- A raw situation record as loaded from a data file (`type RawSituation`). -/
structure RawSituation where
  id : String
  question : LocalizedRec
  answer : LocalizedRec
  answerOpt : Nat
  options : List LocalizedRec
deriving DecidableEq, Repr

/-- A normalized situation (`type Situation`). -/
structure Situation where
  id : String
  question : LocalizedRec
  answer : LocalizedRec
  answerOpt : Nat
  options : List LocalizedRec
  difficulty : Difficulty
  hasQuestionVideo : Bool
  hasAnswerVideo : Bool
  subcategories : List String
  parentCategories : List String
deriving DecidableEq, Repr

/-! The category indexer `buildCategoryIndex` (App, lines 100-120).
JS `Set` objects are duplicate-free lists in insertion order. -/

/-- `Set.add`: append unless already present. -/
def addSet (s : List String) (x : String) : List String :=
  if x ∈ s then s else s ++ [x]

/-- `new Set(iterable)`: deduplicate preserving first occurrences. -/
def mkSet (l : List String) : List String :=
  l.foldl addSet []

/-- Body of the innermost `forEach` over the situation IDs of a subcategory:
add the ID to the parent set and append the subcategory to the
reverse index entry (initializing it on first encounter). -/
def pushSituation (subId : String) (acc : CategoryIndex × List String) (sid : String) :
    CategoryIndex × List String :=
  let pset := addSet acc.2 sid
  let cur := (recGet acc.1.situationToSub sid).getD []
  ({ acc.1 with situationToSub := recSet acc.1.situationToSub sid (cur ++ [subId]) }, pset)

/-- Body of the `forEach` over the subcategories of a category: record the
subcategory metadata and its member set, then walk its situation IDs. -/
def processSub (catId : String) (catName : NameRec) (acc : CategoryIndex × List String)
    (sub : SubcategoryNode) : CategoryIndex × List String :=
  let st1 := { acc.1 with subMeta := recSet acc.1.subMeta sub.id ⟨catId, sub.name, catName⟩ }
  let st2 := { st1 with byId := recSet st1.byId sub.id (mkSet sub.situationIds) }
  sub.situationIds.foldl (pushSituation sub.id) (st2, acc.2)

/-- Body of the outer `forEach`: process the subcategories with a fresh
parent set, then store the parent set under the ID of the category itself. -/
def processCat (st : CategoryIndex) (cat : CategoryNode) : CategoryIndex :=
  let r := cat.subcategories.foldl (processSub cat.id cat.name) (st, [])
  { r.1 with byId := recSet r.1.byId cat.id r.2 }

/-- The source function `buildCategoryIndex`. -/
def buildCategoryIndex (categories : List CategoryNode) : CategoryIndex :=
  categories.foldl processCat ⟨[], [], []⟩

/-! The situation normalizer (App, lines 122-148). -/

/-- The source function `normalizeSituations`: strip `_short` option keys, attach
the difficulty tag, look up subcategories in the reverse index, derive
parent categories (dropping JS-falsy entries), and compute the two
video-presence flags from the manifest entry for the situation ID. -/
def normalizeSituations (raw : List RawSituation) (difficulty : Difficulty)
    (media : MediaManifest) (index : Option CategoryIndex) : List Situation :=
  raw.map fun item =>
    let options := item.options.map fun opt =>
      opt.filter fun kv => ! strEndsWith kv.1 "_short"
    let subcategories := (index.bind fun i => recGet i.situationToSub item.id).getD []
    let parentCategories := subcategories.filterMap fun subId =>
      match index.bind fun i => recGet i.subMeta subId with
      | some meta => if meta.parentId = "" then none else some meta.parentId
      | none => none
    { id := item.id, question := item.question, answer := item.answer,
      answerOpt := item.answerOpt, options := options, difficulty := difficulty,
      hasQuestionVideo := ((recGet media item.id).getD []).contains MediaKind.question,
      hasAnswerVideo := ((recGet media item.id).getD []).contains MediaKind.answer,
      subcategories := subcategories, parentCategories := parentCategories }

/-! The issue detector and the filter engine (App, lines 172-205). -/

/-- The issue predicate, written inline three times in the source:
`!s.hasQuestionVideo || !s.hasAnswerVideo || s.subcategories.length === 0`. -/
def hasIssue (s : Situation) : Bool :=
  !s.hasQuestionVideo || !s.hasAnswerVideo || s.subcategories.isEmpty

/-- The filter specification consumed by `filterSituations`;
`difficulty = none` stands for the all value. -/
structure FilterParams where
  difficulty : Option Difficulty
  category : String
  query : String
  lang : Language
  issuesOnly : Bool
  categorySets : Option (List (String × List String))
deriving Repr

/-- The per-situation predicate of `filterSituations`, with the trimmed
lower-cased query passed in (it is computed once before the loop). -/
def situationMatches (params : FilterParams) (q : String) (s : Situation) : Bool :=
  if (match params.difficulty with
      | some d => decide (s.difficulty ≠ d)
      | none => false) then false
  else if params.category != "" &&
      (match params.categorySets.bind fun cs => recGet cs params.category with
       | some set => ! set.contains s.id
       | none => true) then false
  else if params.issuesOnly && ! hasIssue s then false
  else if q == "" then true
  else
    strIncludes
      (jsToLower (String.intercalate " "
        ([s.id, getLocalizedText s.question params.lang, getLocalizedText s.answer params.lang]
          ++ s.options.map fun opt => getOptionText opt params.lang)))
      q

/-- The source function `filterSituations`. -/
def filterSituations (situations : List Situation) (params : FilterParams) : List Situation :=
  situations.filter (situationMatches params (jsToLower (jsTrim params.query)))

/-! The startup load effect (App, lines 229-259); each of the five
fetches is an `Except` outcome. -/

/-- The data-related component state touched by the load effect. -/
structure AppDataState where
  situations : List Situation
  categories : List CategoryNode
  categoryIndex : Option CategoryIndex
  uncategorized : List String
  error : Option String
  loading : Bool
deriving Repr

/-- The initial component state (`useState` initializers). -/
def initialAppDataState : AppDataState :=
  { situations := [], categories := [], categoryIndex := none,
    uncategorized := [], error := none, loading := true }

/-- The rejection `Promise.all` surfaces: the first failing fetch. -/
def firstLoadError (b i a : Except String (List RawSituation))
    (c : Except String (List CategoryNode)) (m : Except String MediaManifest) :
    Option String :=
  match b with
  | .error e => some e
  | .ok _ =>
    match i with
    | .error e => some e
    | .ok _ =>
      match a with
      | .error e => some e
      | .ok _ =>
        match c with
        | .error e => some e
        | .ok _ =>
          match m with
          | .error e => some e
          | .ok _ => none

/-- The load effect: when all five fetches succeed, build the index,
normalize the three tiers, and populate every derived field; when any
fetch fails, only the error message is set (the catch branch runs before
any `set*` call), and `loading` is cleared in both cases. -/
def load (b i a : Except String (List RawSituation))
    (c : Except String (List CategoryNode)) (m : Except String MediaManifest) :
    AppDataState :=
  match b, i, a, c, m with
  | .ok vb, .ok vi, .ok va, .ok vc, .ok vm =>
    let idx := buildCategoryIndex vc
    let normalized :=
      normalizeSituations vb Difficulty.beginner vm (some idx)
        ++ normalizeSituations vi Difficulty.intermediate vm (some idx)
        ++ normalizeSituations va Difficulty.advanced vm (some idx)
    { situations := normalized, categories := vc, categoryIndex := some idx,
      uncategorized := (normalized.filter fun s => s.subcategories.isEmpty).map Situation.id,
      error := none, loading := false }
  | _, _, _, _, _ =>
    { initialAppDataState with
        error := some ((firstLoadError b i a c m).getD ""), loading := false }

/-! Fixtures for concrete evaluations. -/

/-- A raw situation with no localized entries and no options. -/
def exRaw : RawSituation :=
  { id := "s1", question := [], answer := [], answerOpt := 0, options := [] }

/-- A manifest giving `s1` only a question video. -/
def exMedia : MediaManifest := [("s1", [MediaKind.question])]

/-- The normalization of `exRaw` under `exMedia` with no index. -/
def exSituation : Situation :=
  { id := "s1", question := [], answer := [], answerOpt := 0, options := [],
    difficulty := Difficulty.beginner, hasQuestionVideo := true, hasAnswerVideo := false,
    subcategories := [], parentCategories := [] }

/-! Claim-side predicates for the filter engine, written from the
wording of the specification of the individual predicates. -/

/-- Difficulty predicate: with a specific tier selected the tier of the
situation must match exactly. -/
def passesDifficulty (params : FilterParams) (s : Situation) : Bool :=
  match params.difficulty with
  | some d => s.difficulty == d
  | none => true

/-- Category predicate: with a category selected, the ID of the situation must
be a member of the membership set of that category; an unknown category
matches nothing (fail-closed). -/
def passesCategory (params : FilterParams) (s : Situation) : Bool :=
  if params.category == "" then true
  else
    match params.categorySets.bind fun cs => recGet cs params.category with
    | some set => set.contains s.id
    | none => false

/-- Issues-only predicate: when the flag is set the situation must
satisfy the issue detector. -/
def passesIssues (params : FilterParams) (s : Situation) : Bool :=
  ! params.issuesOnly || hasIssue s

/-- The search haystack as the specification words it: the lower-cased
space-joined concatenation of the situation ID, its resolved question
text, its resolved answer text, and every resolved option text. -/
def searchHaystack (s : Situation) (lang : Language) : String :=
  jsToLower (String.intercalate " "
    ([s.id, getLocalizedText s.question lang, getLocalizedText s.answer lang]
      ++ s.options.map fun opt => getOptionText opt lang))

/-- A situation whose English question contains the word Reaching. -/
def exSearchSituation : Situation :=
  { id := "s2", question := [("en", { text := "Reaching the mark" })],
    answer := [("en", { text := "Keep clear" })], answerOpt := 0,
    options := [[("en", { text := "Yes" })]],
    difficulty := Difficulty.beginner, hasQuestionVideo := true, hasAnswerVideo := true,
    subcategories := ["sub1"], parentCategories := ["cat1"] }

/-- A filter spec searching for the text reach with no other filters. -/
def exSearchParams : FilterParams :=
  { difficulty := none, category := "", query := " Reach ", lang := Language.en,
    issuesOnly := false, categorySets := none }

/-- An intermediate-tier situation passing no other filters. -/
def exInterSituation : Situation :=
  { id := "s3", question := [], answer := [], answerOpt := 0, options := [],
    difficulty := Difficulty.intermediate, hasQuestionVideo := true, hasAnswerVideo := true,
    subcategories := ["sub1"], parentCategories := ["cat1"] }

/-- An unconstrained filter spec (no difficulty, category, query or issues filter). -/
def exPlainParams : FilterParams :=
  { difficulty := none, category := "", query := "", lang := Language.en,
    issuesOnly := false, categorySets := none }

/-! Characterization of the category indexer in terms of simple folds. -/

/-- The accumulated effect of the subcategory loop on `byId`. -/
def byIdFold (subs : List SubcategoryNode) (b : List (String × List String)) :
    List (String × List String) :=
  subs.foldl (fun bb sub => recSet bb sub.id (mkSet sub.situationIds)) b

/-- The accumulated parent set over the subcategories of a category. -/
def psetFold (subs : List SubcategoryNode) (p : List String) : List String :=
  subs.foldl (fun pp sub => sub.situationIds.foldl addSet pp) p

/-- All node IDs of a category tree: the ID of each parent and its
subcategory IDs, in declaration order. -/
def allNodeIds (cats : List CategoryNode) : List String :=
  cats.flatMap fun c => c.id :: c.subcategories.map SubcategoryNode.id

/-- Shared display name for category fixtures. -/
def exName : NameRec := { en := "n", de := "n", ru := "n" }

/-- Parent category `P` with a single subcategory `S` containing `a`. -/
def exCatP : CategoryNode :=
  { id := "P", name := exName,
    subcategories := [{ id := "S", name := exName, situationIds := ["a"] }] }

/-- A category tree in which a later subcategory reuses the parent ID `P`. -/
def exCatsClash : List CategoryNode :=
  [exCatP,
   { id := "Q", name := exName,
     subcategories := [{ id := "P", name := exName, situationIds := ["b"] }] }]

/-- A category tree with pairwise distinct node IDs: parent `P` with
subcategories `S` and `T`. -/
def exCatsOk : List CategoryNode :=
  [{ id := "P", name := exName,
     subcategories :=
       [{ id := "S", name := exName, situationIds := ["a", "b"] },
        { id := "T", name := exName, situationIds := ["b", "c"] }] }]

/-! Theorems. -/

theorem recGet_recSet_self (m : List (String × α)) (k : String) (v : α) :
    recGet (recSet m k v) k = some v := by
  simp [recGet, recSet]

theorem recGet_filter_ne (m : List (String × α)) (k : String) (p : String × α → Bool)
    (h : ∀ v, p (k, v) = true) :
    recGet (m.filter p) k = recGet m k := by
  induction m with
  | nil => rfl
  | cons hd tl ih =>
    cases hd with
    | mk k1 v1 =>
      by_cases hk : k1 = k
      · subst hk
        simp [List.filter_cons, h v1, recGet, ih]
      · cases hp : p (k1, v1)
        · simp [List.filter_cons, hp, recGet, hk, ih]
        · simp [List.filter_cons, hp, recGet, hk, ih]

theorem recGet_recSet_ne (m : List (String × α)) (k k2 : String) (v : α)
    (h : k2 ≠ k) : recGet (recSet m k v) k2 = recGet m k2 := by
  simp only [recSet, recGet, if_neg (Ne.symm h)]
  exact recGet_filter_ne m k2 _ (fun _ => by simpa using h)

theorem recGet_recDel_self (m : List (String × α)) (k : String) :
    recGet (recDel m k) k = none := by
  induction m with
  | nil => rfl
  | cons hd tl ih =>
    cases hd with
    | mk k1 v1 =>
      by_cases hk : k1 = k
      · simpa [recDel, List.filter_cons, hk] using ih
      · simpa [recDel, List.filter_cons, hk, recGet] using ih

theorem recGet_recDel_ne (m : List (String × α)) (k k2 : String)
    (h : k2 ≠ k) : recGet (recDel m k) k2 = recGet m k2 :=
  recGet_filter_ne m k2 _ (fun _ => by simpa using h)

/-- C2: for every localized-text entry and requested language, both
resolvers return the text of the requested language when present, else the
text of the first of en, de, ru present, else the empty string. -/
theorem getLocalizedText_eq_resolveSpec (entry : LocalizedRec) (lang : Language) :
    getLocalizedText entry lang = resolveSpec entry lang ∧
    getOptionText entry lang = resolveSpec entry lang := by
  constructor <;>
  · simp only [getLocalizedText, getOptionText, resolveSpec, List.findSome?]
    cases recGet entry lang.code <;>
      cases recGet entry "en" <;>
        cases recGet entry "de" <;>
          cases recGet entry "ru" <;>
            simp [Option.orElse]

/-- C10: an unrecognized (not merely absent) value of the lang or
difficulty parameter is treated exactly as the default: lang resolves to
en unless the value is exactly de or ru, and difficulty resolves to all
(here `none`) unless the value is exactly one of the three tiers. -/
theorem parse_unrecognized_defaults (p q : Option String) :
    (parseLang p = Language.en ↔ p ≠ some "de" ∧ p ≠ some "ru") ∧
    (parseDifficulty q = none ↔
      q ≠ some "beginner" ∧ q ≠ some "intermediate" ∧ q ≠ some "advanced") := by
  constructor
  · unfold parseLang
    split_ifs <;> simp_all
  · unfold parseDifficulty
    split_ifs <;> simp_all

/-- C1 counterexample: a difficulty-chip change does not clear the
explicit selection (and neither does a category change), contradicting
the claim that every non-selection filter change other than language
clears it. -/
theorem difficultyChip_preserves_id :
    recGet (difficultyChipClick [("id", "s1")] "beginner") "id" = some "s1" ∧
    recGet (categoryButtonClick [("id", "s1")] "c1") "id" = some "s1" ∧
    (some "s1" : Option String) ≠ none := by
  refine ⟨rfl, rfl, by simp⟩

theorem recGet_updateParam_preserve (params : List (String × String))
    (key : String) (value : Option String) (hk : ¬ "id" = key) :
    recGet (updateParam params key value true) "id" = recGet params "id" := by
  unfold updateParam
  simp only [Bool.not_true, Bool.and_false, Bool.false_eq_true, if_false]
  split
  · exact recGet_recDel_ne _ _ _ hk
  · exact recGet_recSet_ne _ _ _ _ hk

theorem recGet_updateParam_clear (params : List (String × String))
    (key : String) (value : Option String) (hk : (key != "id") = true) :
    recGet (updateParam params key value false) "id" = none := by
  unfold updateParam
  simp only [Bool.not_false, Bool.and_true, hk, if_true]
  exact recGet_recDel_self _ _

/-- C1 amended: language, difficulty and category changes are all marked
to preserve the explicit selection; only the free-text query and
issues-only changes clear the `id` parameter. -/
theorem updateParam_id_clearing (params : List (String × String))
    (l : Language) (d c v : String) (b : Bool) :
    recGet (langChipClick params l) "id" = recGet params "id" ∧
    recGet (difficultyChipClick params d) "id" = recGet params "id" ∧
    recGet (categoryButtonClick params c) "id" = recGet params "id" ∧
    recGet (allCategoriesClick params) "id" = recGet params "id" ∧
    recGet (queryInputChange params v) "id" = none ∧
    recGet (issuesToggleChange params b) "id" = none :=
  ⟨recGet_updateParam_preserve _ _ _ (by decide),
   recGet_updateParam_preserve _ _ _ (by decide),
   recGet_updateParam_preserve _ _ _ (by decide),
   recGet_updateParam_preserve _ _ _ (by decide),
   recGet_updateParam_clear _ _ _ (by decide),
   recGet_updateParam_clear _ _ _ (by decide)⟩

/-- C7 counterexample: with filtered sequence `["a", ""]` and selection
`a` at index 0, index 1 exists and holds the empty-string ID, yet
`go(1)` leaves the selection at `a` because the target fails the JS
truthiness test before `selectId` runs. -/
theorem go_empty_target_noop :
    go ["a", ""] (some "a") 1 = some "a" ∧ (some "a" : Option String) ≠ some "" := by
  refine ⟨rfl, by simp⟩

/-- C7 amended: when the selection occurs in the sequence at first index
i, `go(delta)` selects the ID at index i + delta provided that index
exists and its ID is non-empty; it is a no-op when the index is out of
range (negative included, no wraparound) or when the ID there is the
empty string. -/
theorem go_moves_selection (ids : List String) (sid : String) (delta : Int)
    (hmem : sid ∈ ids) :
    (∀ target, jsIndex ids ((List.indexOf sid ids : Nat) + delta) = some target →
      target ≠ "" → go ids (some sid) delta = some target) ∧
    (jsIndex ids ((List.indexOf sid ids : Nat) + delta) = none →
      go ids (some sid) delta = some sid) ∧
    (jsIndex ids ((List.indexOf sid ids : Nat) + delta) = some "" →
      go ids (some sid) delta = some sid) := by
  have hc : ids.contains sid = true := by simpa using hmem
  refine ⟨?_, ?_, ?_⟩
  · intro target hidx hne
    simp [go, hc, hidx, hne, hmem]
  · intro hidx
    simp [go, hc, hidx, hmem]
  · intro hidx
    simp [go, hc, hidx, hmem]

/-- Witness for C7: in `["a","b","c"]` with selection `b`, `go(1)`
selects `c`. -/
theorem go_moves_selection_witness :
    go ["a", "b", "c"] (some "b") 1 = some "c" :=
  (go_moves_selection ["a", "b", "c"] "b" 1 (by decide)).1 "c" rfl (by decide)

/-- C8 counterexample: the selected ID is the empty string and is a
member of the non-empty filtered sequence `["x", ""]`, yet auto-repair
replaces it with the first ID `x`, because the JS truthiness test
`!selectedId` treats an empty selected ID as absent. -/
theorem autoRepair_empty_selected :
    autoRepair ["x", ""] (some "") = some "x" ∧
    ("" ∈ ["x", ""]) ∧
    (some "x" : Option String) ≠ some "" := by
  refine ⟨rfl, by decide, by simp⟩

/-- C8 amended: auto-repair sets the selection to the first ID of the
filtered sequence iff the sequence is non-empty and the selected ID is
absent, empty (JS-falsy), or not a member of the sequence; an empty
sequence leaves the selection untouched, and a non-empty, already
present selection is unchanged. -/
theorem autoRepair_spec (ids : List String) (first : String) (rest : List String)
    (hids : ids = first :: rest) :
    (∀ sel, autoRepair [] sel = sel) ∧
    autoRepair ids none = some first ∧
    autoRepair ids (some "") = some first ∧
    (∀ s, s ∉ ids → autoRepair ids (some s) = some first) ∧
    (∀ s, s ≠ "" → s ∈ ids → autoRepair ids (some s) = some s) := by
  subst hids
  refine ⟨fun sel => rfl, rfl, by simp [autoRepair], ?_, ?_⟩
  · intro s hs
    have hs2 : ¬ (s = first ∨ s ∈ rest) := by simpa using hs
    push_neg at hs2
    simp [autoRepair, hs2.1, hs2.2]
  · intro s hne hmem
    have hm2 : s = first ∨ s ∈ rest := by simpa using hmem
    rcases hm2 with h | h
    · subst h
      simp [autoRepair, hne]
    · simp [autoRepair, hne, h]

/-- Witness for C8: a selected ID `z` absent from the sequence `[x, y]`
auto-advances to `x`, and a present selection `y` is kept. -/
theorem autoRepair_spec_witness :
    autoRepair ["x", "y"] (some "z") = some "x" ∧
    autoRepair ["x", "y"] (some "y") = some "y" :=
  ⟨(autoRepair_spec ["x", "y"] "x" ["y"] rfl).2.2.2.1 "z" (by decide),
   (autoRepair_spec ["x", "y"] "x" ["y"] rfl).2.2.2.2 "y" (by decide) (by decide)⟩

/-- C5: the video-presence flags of every normalized situation are membership
tests of question/answer in the manifest entry for its ID, a missing
manifest entry yields both flags false, and the issue predicate holds
iff a question video is lacking, or an answer video is lacking, or the
situation belongs to zero subcategories. -/
theorem normalize_issue_flags (raw : List RawSituation) (difficulty : Difficulty)
    (media : MediaManifest) (index : Option CategoryIndex) (s : Situation)
    (hs : s ∈ normalizeSituations raw difficulty media index) :
    s.hasQuestionVideo = ((recGet media s.id).getD []).contains MediaKind.question ∧
    s.hasAnswerVideo = ((recGet media s.id).getD []).contains MediaKind.answer ∧
    (recGet media s.id = none → s.hasQuestionVideo = false ∧ s.hasAnswerVideo = false) ∧
    (hasIssue s = true ↔
      s.hasQuestionVideo = false ∨ s.hasAnswerVideo = false ∨ s.subcategories = []) := by
  obtain ⟨item, hitem, rfl⟩ := List.mem_map.mp hs
  refine ⟨rfl, rfl, fun hnone => ?_, ?_⟩
  · simp [hnone]
  · simp only [hasIssue, Bool.or_eq_true, Bool.not_eq_true', List.isEmpty_iff, or_assoc]

/-- Witness for C5 at a concrete situation with only a question video. -/
theorem normalize_issue_flags_witness :
    exSituation.hasQuestionVideo =
        ((recGet exMedia exSituation.id).getD []).contains MediaKind.question ∧
    exSituation.hasAnswerVideo =
        ((recGet exMedia exSituation.id).getD []).contains MediaKind.answer ∧
    (recGet exMedia exSituation.id = none →
      exSituation.hasQuestionVideo = false ∧ exSituation.hasAnswerVideo = false) ∧
    (hasIssue exSituation = true ↔
      exSituation.hasQuestionVideo = false ∨ exSituation.hasAnswerVideo = false ∨
        exSituation.subcategories = []) :=
  normalize_issue_flags [exRaw] Difficulty.beginner exMedia none exSituation (by decide)

/-- C9: when any of the five startup fetches fails, the load produces a
single error state and every derived field keeps its initial empty
value; the derived state is populated, with no error, only when all five
fetches succeed. -/
theorem load_all_or_nothing (b i a : Except String (List RawSituation))
    (c : Except String (List CategoryNode)) (m : Except String MediaManifest) :
    ((b.isOk = false ∨ i.isOk = false ∨ a.isOk = false ∨ c.isOk = false ∨ m.isOk = false) →
      (load b i a c m).situations = [] ∧
      (load b i a c m).categories = [] ∧
      (load b i a c m).categoryIndex = none ∧
      (load b i a c m).uncategorized = [] ∧
      (load b i a c m).error.isSome = true ∧
      (load b i a c m).loading = false) ∧
    ((b.isOk = true ∧ i.isOk = true ∧ a.isOk = true ∧ c.isOk = true ∧ m.isOk = true) →
      (load b i a c m).error = none ∧
      (load b i a c m).categoryIndex.isSome = true ∧
      (load b i a c m).loading = false) := by
  cases b <;> cases i <;> cases a <;> cases c <;> cases m <;>
    simp [load, initialAppDataState, Except.isOk, Except.toBool]

/-- Witness for C9: a single failing fetch (here the category file) with
all others succeeding leaves every derived field empty and sets the
error. -/
theorem load_all_or_nothing_witness :
    (load (.ok []) (.ok []) (.ok []) (.error "boom") (.ok [])).situations = [] ∧
    (load (.ok []) (.ok []) (.ok []) (.error "boom") (.ok [])).categories = [] ∧
    (load (.ok []) (.ok []) (.ok []) (.error "boom") (.ok [])).categoryIndex = none ∧
    (load (.ok []) (.ok []) (.ok []) (.error "boom") (.ok [])).uncategorized = [] ∧
    (load (.ok []) (.ok []) (.ok []) (.error "boom") (.ok [])).error.isSome = true ∧
    (load (.ok []) (.ok []) (.ok []) (.error "boom") (.ok [])).loading = false :=
  (load_all_or_nothing (.ok []) (.ok []) (.ok []) (.error "boom") (.ok [])).1
    (Or.inr (Or.inr (Or.inr (Or.inl rfl))))

theorem jsToLower_eq_empty_iff (s : String) : jsToLower s = "" ↔ s = "" := by
  constructor
  · intro h
    have hdata : s.data.map Char.toLower = [] := congrArg String.data h
    have hnil : s.data = [] := by simpa using hdata
    cases s with
    | mk data =>
      simp only at hnil
      simp [hnil]
  · intro h
    subst h
    rfl

theorem situationMatches_query (params : FilterParams) (q : String) (s : Situation)
    (hq : q ≠ "")
    (hd : passesDifficulty params s = true)
    (hc : passesCategory params s = true)
    (hi : passesIssues params s = true) :
    situationMatches params q s = strIncludes (searchHaystack s params.lang) q := by
  unfold situationMatches searchHaystack
  unfold passesDifficulty at hd
  unfold passesCategory at hc
  unfold passesIssues at hi
  have hd2 : (match params.difficulty with
      | some d => decide (s.difficulty ≠ d)
      | none => false) = false := by
    cases hdiff : params.difficulty with
    | none => rfl
    | some d =>
      rw [hdiff] at hd
      simp at hd
      simp [hd]
  rw [hd2]
  simp only [Bool.false_eq_true, if_false]
  have hc2 : (params.category != "" &&
      (match params.categorySets.bind fun cs => recGet cs params.category with
       | some set => ! set.contains s.id
       | none => true)) = false := by
    by_cases hcat : params.category = ""
    · simp [hcat]
    · rw [if_neg (by simpa using hcat)] at hc
      cases hset : params.categorySets.bind fun cs => recGet cs params.category with
      | none => rw [hset] at hc; exact absurd hc (by simp)
      | some set =>
        rw [hset] at hc
        have hmem : set.contains s.id = true := hc
        show ((params.category != "") && ! set.contains s.id) = false
        rw [hmem]
        simp
  rw [hc2]
  simp only [Bool.false_eq_true, if_false]
  have hi2 : (params.issuesOnly && ! hasIssue s) = false := by
    rcases Bool.or_eq_true_iff.mp hi with h | h
    · have h2 : params.issuesOnly = false := by simpa using h
      simp [h2]
    · simp [h]
  rw [hi2]
  simp only [Bool.false_eq_true, if_false]
  rw [if_neg (by simpa using hq)]

/-- C4: with a non-empty (after trimming) free-text query, a situation
that passes the difficulty, category and issues predicates is in the
filter result iff it is in the input and the lower-cased trimmed query
is a substring of the lower-cased space-joined concatenation of its ID,
question text, answer text and option texts, all resolved in the
selected display language. -/
theorem filter_query_substring (situations : List Situation) (params : FilterParams)
    (s : Situation) (hq : jsTrim params.query ≠ "")
    (hd : passesDifficulty params s = true)
    (hc : passesCategory params s = true)
    (hi : passesIssues params s = true) :
    s ∈ filterSituations situations params ↔
      s ∈ situations ∧
        strIncludes (searchHaystack s params.lang) (jsToLower (jsTrim params.query)) = true := by
  have hq2 : jsToLower (jsTrim params.query) ≠ "" := by
    intro h
    exact hq ((jsToLower_eq_empty_iff _).mp h)
  unfold filterSituations
  rw [List.mem_filter, situationMatches_query params _ s hq2 hd hc hi]

/-- Witness for C4: searching for Reach (case-insensitively, with
surrounding whitespace trimmed) matches the situation whose English
question contains Reaching. -/
theorem filter_query_substring_witness :
    exSearchSituation ∈ filterSituations [exSearchSituation] exSearchParams :=
  (filter_query_substring [exSearchSituation] exSearchParams exSearchSituation
      (by decide) (by decide) (by decide) (by decide)).mpr (by decide)

theorem situationMatches_difficulty_split (params : FilterParams) (t : Difficulty)
    (q : String) (s : Situation) :
    situationMatches { params with difficulty := some t } q s =
      ((s.difficulty == t) && situationMatches { params with difficulty := none } q s) := by
  by_cases ht : s.difficulty = t
  · subst ht
    simp [situationMatches]
  · have h1 : (s.difficulty == t) = false := by simpa using ht
    rw [h1]
    simp only [Bool.false_and]
    unfold situationMatches
    simp [ht]

/-- C6: filtering with a specific tier keeps exactly the situations of
that tier among those passing the other predicates (the all-filter
result), two distinct tiers select disjoint results, every situation of
the all-filter result is in the result of some tier, and the result of each tier
is the order-preserving restriction of the all-filter result to that
tier, so the three tier results merge back into the all-filter result. -/
theorem filter_difficulty_partition (situations : List Situation) (params : FilterParams)
    (t : Difficulty) (s : Situation) :
    (s ∈ filterSituations situations { params with difficulty := some t } ↔
      s.difficulty = t ∧ s ∈ filterSituations situations { params with difficulty := none }) ∧
    (∀ t2, t ≠ t2 →
      ¬ (s ∈ filterSituations situations { params with difficulty := some t } ∧
         s ∈ filterSituations situations { params with difficulty := some t2 })) ∧
    (s ∈ filterSituations situations { params with difficulty := none } ↔
      ∃ t3, s ∈ filterSituations situations { params with difficulty := some t3 }) ∧
    (filterSituations situations { params with difficulty := some t } =
      (filterSituations situations { params with difficulty := none }).filter
        fun s2 => s2.difficulty == t) := by
  have hmem : ∀ (t4 : Difficulty) (s3 : Situation),
      s3 ∈ filterSituations situations { params with difficulty := some t4 } ↔
        s3.difficulty = t4 ∧
          s3 ∈ filterSituations situations { params with difficulty := none } := by
    intro t4 s3
    unfold filterSituations
    rw [List.mem_filter, List.mem_filter]
    simp only [situationMatches_difficulty_split, Bool.and_eq_true, beq_iff_eq]
    tauto
  refine ⟨hmem t s, ?_, ?_, ?_⟩
  · intro t2 hne ⟨h1, h2⟩
    exact hne (((hmem t s).mp h1).1.symm.trans ((hmem t2 s).mp h2).1)
  · constructor
    · intro h
      exact ⟨s.difficulty, (hmem s.difficulty s).mpr ⟨rfl, h⟩⟩
    · rintro ⟨t3, h⟩
      exact ((hmem t3 s).mp h).2
  · unfold filterSituations
    rw [List.filter_filter]
    apply List.filter_congr
    intro s3 _
    rw [situationMatches_difficulty_split]

/-- Witness for C6: over a two-situation list, the beginner filter keeps
exactly the beginner situation, and the beginner and intermediate
results are disjoint at it. -/
theorem filter_difficulty_partition_witness :
    (exSituation ∈ filterSituations [exSituation, exInterSituation]
        { exPlainParams with difficulty := some Difficulty.beginner } ↔
      exSituation.difficulty = Difficulty.beginner ∧
        exSituation ∈ filterSituations [exSituation, exInterSituation]
          { exPlainParams with difficulty := none }) ∧
    ¬ (exSituation ∈ filterSituations [exSituation, exInterSituation]
          { exPlainParams with difficulty := some Difficulty.beginner } ∧
       exSituation ∈ filterSituations [exSituation, exInterSituation]
          { exPlainParams with difficulty := some Difficulty.intermediate }) :=
  ⟨(filter_difficulty_partition [exSituation, exInterSituation] exPlainParams
      Difficulty.beginner exSituation).1,
   (filter_difficulty_partition [exSituation, exInterSituation] exPlainParams
      Difficulty.beginner exSituation).2.1 Difficulty.intermediate (by decide)⟩

theorem mem_addSet (s : List String) (x y : String) : y ∈ addSet s x ↔ y ∈ s ∨ y = x := by
  unfold addSet
  split
  · rename_i h
    constructor
    · exact fun hy => Or.inl hy
    · rintro (hy | rfl)
      · exact hy
      · exact h
  · simp

theorem foldl_addSet_mem (l : List String) (x : String) :
    ∀ s, x ∈ l.foldl addSet s ↔ x ∈ s ∨ x ∈ l := by
  induction l with
  | nil => simp
  | cons a l2 ih =>
    intro s
    rw [List.foldl_cons, ih, mem_addSet]
    simp [List.mem_cons]
    tauto

theorem mem_mkSet (l : List String) (x : String) : x ∈ mkSet l ↔ x ∈ l := by
  unfold mkSet
  rw [foldl_addSet_mem]
  simp

theorem pushSituation_foldl (subId : String) (sids : List String) :
    ∀ acc : CategoryIndex × List String,
    ((sids.foldl (pushSituation subId) acc).1).byId = acc.1.byId ∧
    ((sids.foldl (pushSituation subId) acc).1).subMeta = acc.1.subMeta ∧
    (sids.foldl (pushSituation subId) acc).2 = sids.foldl addSet acc.2 := by
  induction sids with
  | nil => exact fun acc => ⟨rfl, rfl, rfl⟩
  | cons a l ih =>
    intro acc
    rw [List.foldl_cons, List.foldl_cons]
    obtain ⟨h1, h2, h3⟩ := ih (pushSituation subId acc a)
    exact ⟨h1, h2, h3⟩

theorem processSub_parts (catId : String) (catName : NameRec)
    (acc : CategoryIndex × List String) (sub : SubcategoryNode) :
    (processSub catId catName acc sub).1.byId =
      recSet acc.1.byId sub.id (mkSet sub.situationIds) ∧
    (processSub catId catName acc sub).2 = sub.situationIds.foldl addSet acc.2 := by
  unfold processSub
  refine ⟨(pushSituation_foldl _ _ _).1, (pushSituation_foldl _ _ _).2.2⟩

theorem subsFold_parts (catId : String) (catName : NameRec) (subs : List SubcategoryNode) :
    ∀ acc : CategoryIndex × List String,
    (subs.foldl (processSub catId catName) acc).1.byId = byIdFold subs acc.1.byId ∧
    (subs.foldl (processSub catId catName) acc).2 = psetFold subs acc.2 := by
  induction subs with
  | nil => exact fun acc => ⟨rfl, rfl⟩
  | cons sub rest ih =>
    intro acc
    rw [List.foldl_cons]
    obtain ⟨h1, h2⟩ := ih (processSub catId catName acc sub)
    obtain ⟨g1, g2⟩ := processSub_parts catId catName acc sub
    constructor
    · rw [h1, g1]
      rfl
    · rw [h2, g2]
      rfl

theorem processCat_byId (st : CategoryIndex) (cat : CategoryNode) :
    (processCat st cat).byId =
      recSet (byIdFold cat.subcategories st.byId) cat.id (psetFold cat.subcategories []) := by
  show recSet ((cat.subcategories.foldl (processSub cat.id cat.name) (st, [])).1.byId) cat.id
      ((cat.subcategories.foldl (processSub cat.id cat.name) (st, [])).2) = _
  obtain ⟨h1, h2⟩ := subsFold_parts cat.id cat.name cat.subcategories (st, [])
  rw [h1, h2]

theorem recGet_byIdFold_not_mem (subs : List SubcategoryNode) (k : String)
    (h : k ∉ subs.map SubcategoryNode.id) :
    ∀ b, recGet (byIdFold subs b) k = recGet b k := by
  induction subs with
  | nil => exact fun b => rfl
  | cons sub rest ih =>
    intro b
    simp only [List.map_cons, List.mem_cons, not_or] at h
    calc recGet (byIdFold rest (recSet b sub.id (mkSet sub.situationIds))) k
        = recGet (recSet b sub.id (mkSet sub.situationIds)) k := ih h.2 _
      _ = recGet b k := recGet_recSet_ne _ _ _ _ h.1

theorem recGet_byIdFold_mem (subs : List SubcategoryNode) (sub : SubcategoryNode)
    (hmem : sub ∈ subs) (hnd : (subs.map SubcategoryNode.id).Nodup) :
    ∀ b, recGet (byIdFold subs b) sub.id = some (mkSet sub.situationIds) := by
  induction subs with
  | nil => cases hmem
  | cons s1 rest ih =>
    intro b
    simp only [List.map_cons, List.nodup_cons] at hnd
    rcases List.mem_cons.mp hmem with rfl | hmem2
    · show recGet (byIdFold rest (recSet b sub.id (mkSet sub.situationIds))) sub.id = _
      rw [recGet_byIdFold_not_mem rest sub.id hnd.1, recGet_recSet_self]
    · show recGet (byIdFold rest (recSet b s1.id (mkSet s1.situationIds))) sub.id = _
      exact ih hmem2 hnd.2 _

theorem mem_psetFold (subs : List SubcategoryNode) (x : String) :
    ∀ p, x ∈ psetFold subs p ↔ x ∈ p ∨ ∃ sub, sub ∈ subs ∧ x ∈ sub.situationIds := by
  induction subs with
  | nil => simp [psetFold]
  | cons sub rest ih =>
    intro p
    show x ∈ psetFold rest (sub.situationIds.foldl addSet p) ↔ _
    rw [ih, foldl_addSet_mem]
    constructor
    · rintro ((hp | hx) | ⟨s2, hs2, hx⟩)
      · exact Or.inl hp
      · exact Or.inr ⟨sub, List.mem_cons_self _ _, hx⟩
      · exact Or.inr ⟨s2, List.mem_cons_of_mem _ hs2, hx⟩
    · rintro (hp | ⟨s2, hs2, hx⟩)
      · exact Or.inl (Or.inl hp)
      · rcases List.mem_cons.mp hs2 with rfl | h2
        · exact Or.inl (Or.inr hx)
        · exact Or.inr ⟨s2, h2, hx⟩

theorem allNodeIds_cons (c : CategoryNode) (cs : List CategoryNode) :
    allNodeIds (c :: cs) =
      (c.id :: c.subcategories.map SubcategoryNode.id) ++ allNodeIds cs := rfl

theorem recGet_foldCats_not_mem (cats : List CategoryNode) (k : String) :
    ∀ st, k ∉ allNodeIds cats →
      recGet ((cats.foldl processCat st).byId) k = recGet st.byId k := by
  induction cats with
  | nil => exact fun st _ => rfl
  | cons c cs ih =>
    intro st h
    rw [allNodeIds_cons] at h
    simp only [List.mem_append, List.mem_cons, not_or] at h
    obtain ⟨⟨h1, h2⟩, h3⟩ := h
    rw [List.foldl_cons, ih _ h3, processCat_byId,
      recGet_recSet_ne _ _ _ _ h1, recGet_byIdFold_not_mem _ _ h2]

theorem buildIndex_aux (cats : List CategoryNode) :
    ∀ cat, cat ∈ cats → (allNodeIds cats).Nodup → ∀ st,
      recGet ((cats.foldl processCat st).byId) cat.id =
        some (psetFold cat.subcategories []) ∧
      ∀ sub, sub ∈ cat.subcategories →
        recGet ((cats.foldl processCat st).byId) sub.id =
          some (mkSet sub.situationIds) := by
  induction cats with
  | nil => intro cat hcat; cases hcat
  | cons c cs ih =>
    intro cat hcat hnd st
    rw [allNodeIds_cons] at hnd
    obtain ⟨hleft, hrest, hdisj⟩ := List.nodup_append.mp hnd
    rcases List.mem_cons.mp hcat with rfl | hmem
    · have hsubnd : (cat.subcategories.map SubcategoryNode.id).Nodup :=
        (List.nodup_cons.mp hleft).2
      have hidrest : cat.id ∉ allNodeIds cs :=
        fun hin => hdisj (List.mem_cons_self _ _) hin
      rw [List.foldl_cons]
      constructor
      · rw [recGet_foldCats_not_mem cs cat.id _ hidrest, processCat_byId, recGet_recSet_self]
      · intro sub hs
        have hsubrest : sub.id ∉ allNodeIds cs :=
          fun hin => hdisj (List.mem_cons_of_mem _ (List.mem_map_of_mem _ hs)) hin
        have hsubne : sub.id ≠ cat.id := by
          intro he
          exact (List.nodup_cons.mp hleft).1 (he ▸ List.mem_map_of_mem SubcategoryNode.id hs)
        rw [recGet_foldCats_not_mem cs sub.id _ hsubrest, processCat_byId,
          recGet_recSet_ne _ _ _ _ hsubne, recGet_byIdFold_mem _ sub hs hsubnd]
    · rw [List.foldl_cons]
      exact ih cat hmem hrest (processCat st c)

/-- C3 counterexample: in `exCatsClash` the later subcategory with the
reused ID `P` overwrites the parent entry, so the final
membership set contains `b` while the set of its only subcategory `S`
does not: the parent set is not the union of the subcategory sets. -/
theorem buildCategoryIndex_overwrite :
    exCatP ∈ exCatsClash ∧
    exCatP.subcategories =
      [{ id := "S", name := exName, situationIds := ["a"] }] ∧
    "b" ∈ (recGet (buildCategoryIndex exCatsClash).byId "P").getD [] ∧
    "b" ∉ (recGet (buildCategoryIndex exCatsClash).byId "S").getD [] := by
  refine ⟨by decide, rfl, by decide, by decide⟩

/-- C3 amended: for every category tree whose node IDs (parent and
subcategory IDs together) are pairwise distinct, the membership set of
every parent category in the built index equals the union of the
membership sets of its subcategories. -/
theorem buildCategoryIndex_parent_union (cats : List CategoryNode) (cat : CategoryNode)
    (sid : String) (hcat : cat ∈ cats) (hnd : (allNodeIds cats).Nodup) :
    sid ∈ (recGet (buildCategoryIndex cats).byId cat.id).getD [] ↔
      ∃ sub, sub ∈ cat.subcategories ∧
        sid ∈ (recGet (buildCategoryIndex cats).byId sub.id).getD [] := by
  obtain ⟨hp, hsubs⟩ := buildIndex_aux cats cat hcat hnd ⟨[], [], []⟩
  unfold buildCategoryIndex
  rw [hp]
  simp only [Option.getD_some]
  rw [mem_psetFold]
  constructor
  · rintro (h | ⟨sub, hs, hx⟩)
    · cases h
    · refine ⟨sub, hs, ?_⟩
      rw [hsubs sub hs]
      simpa [Option.getD_some] using (mem_mkSet _ _).mpr hx
  · rintro ⟨sub, hs, hx⟩
    rw [hsubs sub hs] at hx
    simp only [Option.getD_some] at hx
    exact Or.inr ⟨sub, hs, (mem_mkSet _ _).mp hx⟩

/-- Witness for C3 on the distinct-ID tree: `c`, a member of subcategory
`T` only, is in the membership set of parent `P`. -/
theorem buildCategoryIndex_parent_union_witness :
    "c" ∈ (recGet (buildCategoryIndex exCatsOk).byId "P").getD [] :=
  (buildCategoryIndex_parent_union exCatsOk
      { id := "P", name := exName,
        subcategories :=
          [{ id := "S", name := exName, situationIds := ["a", "b"] },
           { id := "T", name := exName, situationIds := ["b", "c"] }] }
      "c" (by decide) (by decide)).mpr
    ⟨{ id := "T", name := exName, situationIds := ["b", "c"] }, by decide, by decide⟩

end RRS
